import Mathlib

/-!
Verification of the cyber-report-generator LLM-output parsing pipeline
(`src/main.py`): `parse_markdown_table`, `extract_tables_from_text`,
`parse_report_sections` and `build_combined_prompt`, embedded shallowly.
Python strings are modelled as lists of characters, Python dicts as
insertion-ordered association lists with in-place overwrite on key reuse.
-/

set_option synthInstance.maxSize 1024

namespace CyberReport

abbrev Str := List Char

/-- Python `str.strip()` whitespace set (ASCII subset actually produced here). -/
def pyIsSpace (c : Char) : Bool :=
  c = ' ' || c = '\t' || c = '\n' || c = '\r' || c = '\x0b' || c = '\x0c'

/-- Python `s.strip()`. -/
def pyStrip (s : Str) : Str :=
  ((s.dropWhile pyIsSpace).reverse.dropWhile pyIsSpace).reverse

/-- Python `s.startswith(p)`. -/
def startsWithStr : Str → Str → Bool
  | [], _ => true
  | _ :: _, [] => false
  | p :: ps, c :: cs => p = c && startsWithStr ps cs

/-- Python `s.endswith(p)`. -/
def endsWithStr (p s : Str) : Bool :=
  startsWithStr p.reverse s.reverse

/-- Python `c in s` for a single character. -/
def hasChar (c : Char) : Str → Bool
  | [] => false
  | x :: xs => x = c || hasChar c xs

/-- Python `needle in s` (substring containment). -/
def hasSub (needle : Str) : Str → Bool
  | [] => needle.isEmpty
  | c :: rest => startsWithStr needle (c :: rest) || hasSub needle rest

/-- Python `s.split(sep)` for a one-character separator: never returns `[]`. -/
def splitOnChar (c : Char) : Str → List Str
  | [] => [[]]
  | x :: xs =>
    if x = c then [] :: splitOnChar c xs
    else
      match splitOnChar c xs with
      | [] => [[x]]
      | y :: ys => (x :: y) :: ys

/-- Python `sep.join(parts)` for a one-character separator. -/
def joinWith (c : Char) : List Str → Str
  | [] => []
  | [x] => x
  | x :: y :: ys => x ++ c :: joinWith c (y :: ys)

/-- Decimal rendering of a natural number, as Python `str(n)`. -/
def natToStr (n : Nat) : Str := Nat.toDigits 10 n

/-- Python dict assignment `d[k] = v`: overwrite in place, else append. -/
def dinsert {V : Type} (k : Str) (v : V) : List (Str × V) → List (Str × V)
  | [] => [(k, v)]
  | p :: rest => if p.1 = k then (k, v) :: rest else p :: dinsert k v rest

/-- Python dict lookup `d[k]` / membership `k in d`. -/
def dlookup {V : Type} (k : Str) : List (Str × V) → Option V
  | [] => none
  | p :: rest => if p.1 = k then some p.2 else dlookup k rest

/-- A parsed table row: Python `dict(zip(headers, row_data))`. -/
abbrev Rec := List (Str × Str)

abbrev Table := List Rec

/-- Python `dict(zip(ks, vs))` (stops at the shorter list, later keys overwrite). -/
def dictOfZip (ks vs : List Str) : Rec :=
  (List.zip ks vs).foldl (fun d p => dinsert p.1 p.2 d) []

/-- `line.split('|')[1:-1]` with each cell stripped. -/
def splitCells (line : Str) : List Str :=
  (((splitOnChar '|' line).drop 1).dropLast).map pyStrip

/-- The stripped, non-blank lines that `parse_markdown_table` works on. -/
def pmtLines (table_text : Str) : List Str :=
  ((splitOnChar '\n' table_text).map pyStrip).filter (fun l => decide (l ≠ []))

/-- One iteration of the `for line in lines[2:]` loop of `parse_markdown_table`. -/
def rowStep (headers : List Str) (acc : List Rec) (line : Str) : List Rec :=
  if startsWithStr ['|'] line && endsWithStr ['|'] line then
    let row_data := splitCells line
    if row_data.length = headers.length then acc ++ [dictOfZip headers row_data]
    else acc
  else acc

/-- `parse_markdown_table` from `src/main.py`: header on line 0, line 1 always
skipped, rows from line 2 on kept when pipe-bounded with matching cell count. -/
def parse_markdown_table (table_text : Str) : Option Table :=
  let lines := pmtLines table_text
  if lines.length < 3 then none
  else
    match lines with
    | [] => none
    | header_line :: tail =>
      if !(startsWithStr ['|'] header_line && endsWithStr ['|'] header_line) then none
      else
        let headers := splitCells header_line
        let data_rows := (tail.drop 1).foldl (rowStep headers) []
        if data_rows.isEmpty then none else some data_rows

/-- `stripped_line.startswith('|') and stripped_line.endswith('|') and '|' in
stripped_line[1:-1]` from `extract_tables_from_text`. -/
def isTableRow (stripped : Str) : Bool :=
  startsWithStr ['|'] stripped && endsWithStr ['|'] stripped &&
    hasChar '|' ((stripped.drop 1).dropLast)

/-- `stripped_line.startswith('|') and ('---' in stripped_line or '====' in
stripped_line)` from `extract_tables_from_text`. -/
def isSepLine (stripped : Str) : Bool :=
  startsWithStr ['|'] stripped &&
    (hasSub ['-', '-', '-'] stripped || hasSub ['=', '=', '=', '='] stripped)

/-- Loop state of `extract_tables_from_text`. -/
structure ExtState where
  clean_lines : List Str
  current_table_lines : List Str
  tables : List Table
  in_table : Bool
  deriving DecidableEq

def initExtState : ExtState := ⟨[], [], [], false⟩

/-- Flush the pending table run (the shared end-of-run logic of
`extract_tables_from_text`, lines 136-143 and 150-154 of `src/main.py`). -/
def flushTable (st : ExtState) : ExtState :=
  if 3 ≤ st.current_table_lines.length then
    match parse_markdown_table (joinWith '\n' st.current_table_lines) with
    | some t => { st with tables := st.tables ++ [t],
                          current_table_lines := [], in_table := false }
    | none => { st with current_table_lines := [], in_table := false }
  else { st with current_table_lines := [], in_table := false }

/-- One iteration of the `for line in lines` loop of `extract_tables_from_text`. -/
def extractStep (st : ExtState) (line : Str) : ExtState :=
  let stripped := pyStrip line
  if isTableRow stripped then
    if st.in_table then { st with current_table_lines := st.current_table_lines ++ [stripped] }
    else { st with in_table := true, current_table_lines := [stripped] }
  else if isSepLine stripped then
    if st.in_table then { st with current_table_lines := st.current_table_lines ++ [stripped] }
    else st
  else
    let st1 := if st.in_table then flushTable st else st
    if stripped ≠ [] then { st1 with clean_lines := st1.clean_lines ++ [line] } else st1

/-- `extract_tables_from_text` from `src/main.py`. -/
def extract_tables_from_text (text : Str) : Str × List Table :=
  let st := (splitOnChar '\n' text).foldl extractStep initExtState
  let tables :=
    if st.in_table ∧ 3 ≤ st.current_table_lines.length then
      match parse_markdown_table (joinWith '\n' st.current_table_lines) with
      | some t => st.tables ++ [t]
      | none => st.tables
    else st.tables
  (joinWith '\n' st.clean_lines, tables)

/-- The fixed section catalog of `parse_report_sections`. -/
def section_names : List Str :=
  ["Attack Indicators".toList,
   "Honeypot Attack Trends".toList,
   "Network Traffic by Protocol".toList,
   "Indicator of Attacks".toList,
   "Top IP Addresses".toList,
   "Credential Patterns".toList,
   "Subdomains".toList,
   "Email Addresses".toList,
   "Hashes".toList]

def digitChars : List Char := ['1', '2', '3', '4', '5', '6', '7', '8', '9']

/-- The `patterns_to_check` list built inside `parse_report_sections`:
`"1. {name}"` … `"9. {name}"`, then `"1. **{name}**"` … `"9. **{name}**"`,
then the bare name. -/
def sectionPatterns (name : Str) : List Str :=
  (digitChars.map (fun d => d :: (". ".toList ++ name)))
    ++ (digitChars.map (fun d => d :: (". **".toList ++ (name ++ "**".toList))))
    ++ [name]

/-- The header test of `parse_report_sections` for one catalog name
(`any(line.startswith(p)) or line.strip() == name or line.strip().endswith(name)`). -/
def matchesSection (line name : Str) : Bool :=
  (sectionPatterns name).any (fun p => startsWithStr p line)
    || decide (pyStrip line = name)
    || endsWithStr name (pyStrip line)

/-- The `for section_name in section_names: … break` search: first catalog
name whose accepted forms match the line. -/
def findSection (line : Str) : Option Str :=
  section_names.find? (fun name => matchesSection line name)

/-- Loop state of `parse_report_sections`:`sections`, `section_tables`,
`current_section`, `current_content`. -/
structure ParseState where
  sections : List (Str × Str)
  section_tables : List (Str × Option (List Table))
  current_section : Option Str
  current_content : List Str
  deriving DecidableEq

def initParseState : ParseState := ⟨[], [], none, []⟩

/-- The save-previous-section block of `parse_report_sections` (lines 222-227,
repeated at 238-242 of `src/main.py`): `if current_section and current_content:`
join, strip, extract tables, store prose and `tables if tables else None`. -/
def closeSection (st : ParseState) : ParseState :=
  match st.current_section with
  | some cs =>
    if st.current_content ≠ [] then
      let raw_text := pyStrip (joinWith '\n' st.current_content)
      let res := extract_tables_from_text raw_text
      { st with
        sections := dinsert cs res.1 st.sections,
        section_tables :=
          dinsert cs (if res.2.isEmpty then none else some res.2) st.section_tables }
    else st
  | none => st

/-- One iteration of the `for line in lines` loop of `parse_report_sections`. -/
def parseStep (st : ParseState) (rawline : Str) : ParseState :=
  let line := pyStrip rawline
  if line = [] then
    if st.current_content ≠ [] then
      { st with current_content := st.current_content ++ [[]] }
    else st
  else
    match findSection line with
    | some found =>
      let st1 := closeSection st
      { st1 with current_section := some found, current_content := [] }
    | none =>
      match st.current_section with
      | some _ => { st with current_content := st.current_content ++ [line] }
      | none => st

/-- The placeholder prose `f"No content found for {name} section."`. -/
def noContentText (name : Str) : Str :=
  "No content found for ".toList ++ name ++ " section.".toList

/-- One iteration of the final `for name in section_names` completeness loop. -/
def fillStep (p : List (Str × Str) × List (Str × Option (List Table))) (name : Str) :
    List (Str × Str) × List (Str × Option (List Table)) :=
  if (dlookup name p.1).isSome then p
  else (dinsert name (noContentText name) p.1, dinsert name none p.2)

/-- `parse_report_sections` from `src/main.py`. -/
def parse_report_sections (report_text : Str) :
    List (Str × Str) × List (Str × Option (List Table)) :=
  let st := (splitOnChar '\n' report_text).foldl parseStep initParseState
  let st := closeSection st
  section_names.foldl fillStep (st.sections, st.section_tables)

/-- `f"{i+1}. {row}"`: one serialized digest line of `build_combined_prompt`. -/
def rowLine {α : Type} (ρ : α → Str) (i : Nat) (row : α) : Str :=
  natToStr (i + 1) ++ ". ".toList ++ ρ row

/-- `f"\n--- {sheet_name} ---"`: one source-header line of `build_combined_prompt`. -/
def sheetHeaderLine (sheet_name : Str) : Str :=
  "\n--- ".toList ++ sheet_name ++ " ---".toList

/-- The `combined_rows` accumulation of `build_combined_prompt`
(`src/main.py` lines 11-17): per source, a header line, then
`enumerate(records[:15])` rendered via `rowLine`. The row type is abstract
(`ρ` stands for Python `str(row)` on a records dict). -/
def build_combined_rows {α : Type} (ρ : α → Str) (all_data : List (Str × List α)) :
    List Str :=
  all_data.foldl
    (fun combined_rows sheet =>
      let limited_records := sheet.2.take 15
      (limited_records.foldl
        (fun (p : List Str × Nat) row => (p.1 ++ [rowLine ρ p.2 row], p.2 + 1))
        (combined_rows ++ [sheetHeaderLine sheet.1], 0)).1)
    []

/-- `combined_data_text = "\n".join(combined_rows)` of `build_combined_prompt`. -/
def combined_data_text {α : Type} (ρ : α → Str) (all_data : List (Str × List α)) : Str :=
  joinWith '\n' (build_combined_rows ρ all_data)

/-- Names bound at module level in `src/config.py` (its imports and the three
assignments `OPENROUTER_API_KEY`, `LLM_MODEL`, `OPENROUTER_BASE_URL`). -/
def configModuleNames : List Str :=
  ["os".toList, "load_dotenv".toList, "OPENROUTER_API_KEY".toList,
   "LLM_MODEL".toList, "OPENROUTER_BASE_URL".toList]

/-- The names `src/main.py` imports from `config` (line 4). -/
def mainConfigImports : List Str :=
  ["OPENAI_API_KEY".toList, "LLM_MODEL".toList]

/-- Sentinel returned by `call_llm` when the API key is not configured. -/
def apiKeyErrorText : Str := "[Error: API key not configured]".toList

/-- Sentinel returned by `call_llm` when the chat-completion request raises. -/
def requestErrorText : Str := "[Error: Failed to generate report.]".toList

/-! ### Claim-side definitions, worded from the specification, to be compared
with the code-side definitions above. -/

/-- Claim side (C2, amended): a line after the first two is kept exactly when
it is pipe-bounded and splits into as many cells as the header. -/
def keptRow (headers : List Str) (line : Str) : Option Rec :=
  if startsWithStr ['|'] line && endsWithStr ['|'] line then
    if (splitCells line).length = headers.length then
      some (dictOfZip headers (splitCells line))
    else none
  else none

/-- Claim side (C3, amended): buffer accumulation as the amended claim words
it — non-blank lines appended after trimming, blank lines appended as empty
entries only when the buffer is already non-empty. -/
def bufferAccum (buf : List Str) (lines : List Str) : List Str :=
  lines.foldl
    (fun b l =>
      if pyStrip l = [] then (if b = [] then b else b ++ [[]])
      else b ++ [pyStrip l]) buf

/-- Claim side (C5): the ordinal form — "1." through "9." immediately
followed by the bare name. -/
def claimOrdForm (line name : Str) : Bool :=
  digitChars.any (fun d => startsWithStr (d :: (". ".toList ++ name)) line)

/-- Claim side (C5): the ordinal form with the name wrapped in emphasis
markers. -/
def claimOrdEmphForm (line name : Str) : Bool :=
  digitChars.any (fun d => startsWithStr (d :: (". **".toList ++ (name ++ "**".toList))) line)

/-- Claim side (C5, as stated): ordinal form, emphasised ordinal form, the
bare name exactly, or ending with the bare name. -/
def claimHeaderMatch (line name : Str) : Bool :=
  claimOrdForm line name || claimOrdEmphForm line name
    || decide (pyStrip line = name) || endsWithStr name (pyStrip line)

/-- Claim side (C5, as stated): first catalog name in order whose accepted
forms match. -/
def claimFindSection (line : Str) : Option Str :=
  section_names.find? (fun name => claimHeaderMatch line name)

/-- Claim side (C5, amended): additionally a line merely starting with the
bare name is accepted. -/
def amendedHeaderMatch (line name : Str) : Bool :=
  claimHeaderMatch line name || startsWithStr name line

/-- Claim side (C5, amended): first catalog name in order whose amended
accepted forms match. -/
def amendedFindSection (line : Str) : Option Str :=
  section_names.find? (fun name => amendedHeaderMatch line name)

/-- Claim side (C8): the digest — per source, its labelled header line
followed by the first 15 rows in order, each rendered with a 1-based index;
source groups concatenated in input order. -/
def specDigest {α : Type} (ρ : α → Str) (all_data : List (Str × List α)) : List Str :=
  (all_data.map (fun sheet =>
    sheetHeaderLine sheet.1 ::
      ((sheet.2.take 15).enum.map (fun q => rowLine ρ q.1 q.2)))).flatten

/-! ### Dictionary lemmas -/

theorem dlookup_dinsert_self {V : Type} (k : Str) (v : V) (d : List (Str × V)) :
    dlookup k (dinsert k v d) = some v := by
  induction d with
  | nil => simp [dinsert, dlookup]
  | cons p rest ih =>
    by_cases h : p.1 = k
    · simp [dinsert, h, dlookup]
    · simp [dinsert, h, dlookup, ih]

theorem dlookup_dinsert_ne {V : Type} {k k' : Str} (h : k' ≠ k) (v : V)
    (d : List (Str × V)) : dlookup k (dinsert k' v d) = dlookup k d := by
  induction d with
  | nil => simp [dinsert, dlookup, h]
  | cons p rest ih =>
    by_cases hp : p.1 = k'
    · simp [dinsert, hp, dlookup, h]
    · simp [dinsert, hp, dlookup, ih]

theorem dlookup_dinsert_isSome {V : Type} (k k' : Str) (v : V) (d : List (Str × V)) :
    (dlookup k (dinsert k' v d)).isSome = true ↔
      (k = k' ∨ (dlookup k d).isSome = true) := by
  by_cases h : k = k'
  · subst h; simp [dlookup_dinsert_self]
  · rw [dlookup_dinsert_ne (Ne.symm h)]
    simp [h]

/-! ### Key-set machinery for `parse_report_sections` (claim C1) -/

/-- `sections` and `section_tables` always hold exactly the same keys. -/
def keysAligned (st : ParseState) : Prop :=
  ∀ k, (dlookup k st.sections).isSome = (dlookup k st.section_tables).isSome

theorem closeSection_keysAligned {st : ParseState} (h : keysAligned st) :
    keysAligned (closeSection st) := by
  unfold closeSection
  cases hcs : st.current_section with
  | none => exact h
  | some cs =>
    dsimp only
    by_cases hc : st.current_content ≠ []
    · rw [if_pos hc]
      intro k
      by_cases hk : k = cs
      · subst hk
        simp [dlookup_dinsert_self]
      · simp only [dlookup_dinsert_ne (Ne.symm hk)]
        exact h k
    · rw [if_neg hc]
      exact h

theorem parseStep_keysAligned {st : ParseState} (h : keysAligned st) (l : Str) :
    keysAligned (parseStep st l) := by
  unfold parseStep
  by_cases hb : pyStrip l = []
  · simp only [hb, if_true]
    split
    · exact h
    · exact h
  · simp only [hb, if_false]
    cases hf : findSection (pyStrip l) with
    | some found =>
      simp only []
      exact closeSection_keysAligned h
    | none =>
      cases hcs : st.current_section with
      | some cs => exact h
      | none => exact h

theorem foldl_parseStep_keysAligned (lines : List Str) {st : ParseState}
    (h : keysAligned st) : keysAligned (lines.foldl parseStep st) := by
  induction lines generalizing st with
  | nil => exact h
  | cons l ls ih => exact ih (parseStep_keysAligned h l)

theorem fillStep_mono₁ {p : List (Str × Str) × List (Str × Option (List Table))}
    {k : Str} (h : (dlookup k p.1).isSome = true) (name : Str) :
    (dlookup k (fillStep p name).1).isSome = true := by
  unfold fillStep
  split
  · exact h
  · exact (dlookup_dinsert_isSome _ _ _ _).2 (Or.inr h)

theorem fillStep_mono₂ {p : List (Str × Str) × List (Str × Option (List Table))}
    {k : Str} (h : (dlookup k p.2).isSome = true) (name : Str) :
    (dlookup k (fillStep p name).2).isSome = true := by
  unfold fillStep
  split
  · exact h
  · exact (dlookup_dinsert_isSome _ _ _ _).2 (Or.inr h)

theorem foldl_fillStep_mono₁ (names : List Str)
    {p : List (Str × Str) × List (Str × Option (List Table))} {k : Str}
    (h : (dlookup k p.1).isSome = true) :
    (dlookup k (names.foldl fillStep p).1).isSome = true := by
  induction names generalizing p with
  | nil => exact h
  | cons n ns ih => exact ih (fillStep_mono₁ h n)

theorem foldl_fillStep_mono₂ (names : List Str)
    {p : List (Str × Str) × List (Str × Option (List Table))} {k : Str}
    (h : (dlookup k p.2).isSome = true) :
    (dlookup k (names.foldl fillStep p).2).isSome = true := by
  induction names generalizing p with
  | nil => exact h
  | cons n ns ih => exact ih (fillStep_mono₂ h n)

/-- One-directional key alignment for the pair carried by the final loop. -/
def pairAligned (p : List (Str × Str) × List (Str × Option (List Table))) : Prop :=
  ∀ k, (dlookup k p.1).isSome = true → (dlookup k p.2).isSome = true

theorem fillStep_pairAligned {p : List (Str × Str) × List (Str × Option (List Table))}
    (h : pairAligned p) (name : Str) : pairAligned (fillStep p name) := by
  unfold fillStep
  split
  · exact h
  · intro k hk
    rcases (dlookup_dinsert_isSome _ _ _ _).1 hk with heq | hold
    · exact (dlookup_dinsert_isSome _ _ _ _).2 (Or.inl heq)
    · exact (dlookup_dinsert_isSome _ _ _ _).2 (Or.inr (h k hold))

theorem foldl_fillStep_total (names : List Str)
    {p : List (Str × Str) × List (Str × Option (List Table))}
    (halign : pairAligned p) {name : Str} (hmem : name ∈ names) :
    (dlookup name (names.foldl fillStep p).1).isSome = true ∧
      (dlookup name (names.foldl fillStep p).2).isSome = true := by
  induction names generalizing p with
  | nil => cases hmem
  | cons n ns ih =>
    rcases List.mem_cons.1 hmem with heq | htail
    · subst heq
      have h1 : (dlookup name (fillStep p name).1).isSome = true := by
        unfold fillStep
        split
        · assumption
        · exact (dlookup_dinsert_isSome _ _ _ _).2 (Or.inl rfl)
      have h2 : (dlookup name (fillStep p name).2).isSome = true :=
        fillStep_pairAligned halign name _ h1
      exact ⟨foldl_fillStep_mono₁ ns h1, foldl_fillStep_mono₂ ns h2⟩
    · exact ih (fillStep_pairAligned halign n) htail

/-- C1: for every input string, `parse_report_sections` returns a prose mapping
and a tables mapping whose key sets each contain all 9 catalog section names —
no catalog key is ever missing from either mapping, regardless of the input. -/
theorem C1_parse_report_sections_total (report_text : Str) {name : Str}
    (h : name ∈ section_names) :
    (dlookup name (parse_report_sections report_text).1).isSome = true ∧
      (dlookup name (parse_report_sections report_text).2).isSome = true := by
  unfold parse_report_sections
  have halign :
      keysAligned
        (closeSection ((splitOnChar '\n' report_text).foldl parseStep initParseState)) :=
    closeSection_keysAligned
      (foldl_parseStep_keysAligned _ (fun _ => rfl))
  exact foldl_fillStep_total section_names (fun k hk => (halign k).symm.trans hk) h

theorem C1_parse_report_sections_total_witness :
    (dlookup "Hashes".toList (parse_report_sections "no headers at all".toList).1).isSome
        = true ∧
      (dlookup "Hashes".toList
        (parse_report_sections "no headers at all".toList).2).isSome = true :=
  C1_parse_report_sections_total "no headers at all".toList (by decide)

/-! ### Claim C2: row retention in `parse_markdown_table` -/

theorem rowStep_eq_keptRow (headers : List Str) (acc : List Rec) (line : Str) :
    rowStep headers acc line = acc ++ (keptRow headers line).toList := by
  unfold rowStep keptRow
  by_cases h1 : (startsWithStr ['|'] line && endsWithStr ['|'] line) = true
  · by_cases h2 : (splitCells line).length = headers.length
    · simp [h1, h2]
    · simp [h1, h2]
  · simp [h1]

theorem foldl_rowStep (headers : List Str) (ls : List Str) (acc : List Rec) :
    ls.foldl (rowStep headers) acc = acc ++ ls.filterMap (keptRow headers) := by
  induction ls generalizing acc with
  | nil => simp
  | cons l rest ih =>
    rw [List.foldl_cons, ih, rowStep_eq_keptRow, List.filterMap_cons]
    cases keptRow headers l with
    | none => simp
    | some r => simp

/-- C2 counterexample: the second line of a table region is skipped
unconditionally, even when it is a data row and not a separator candidate
(first two conjuncts), and a later separator-candidate line whose cell count
matches the header is retained as a data record (third conjunct). -/
theorem C2_second_line_counterexample :
    parse_markdown_table ("| A | B |\n| 1 | 2 |\n| 3 | 4 |".toList)
        = some [[("A".toList, "3".toList), ("B".toList, "4".toList)]] ∧
      parse_markdown_table ("| A | B |\n| 1 | 2 |\n| 3 | 4 |".toList)
        ≠ some [[("A".toList, "1".toList), ("B".toList, "2".toList)],
                [("A".toList, "3".toList), ("B".toList, "4".toList)]] ∧
      parse_markdown_table ("| A | B |\n|---|---|\n| 1 | 2 |\n| --- | --- |".toList)
        = some [[("A".toList, "1".toList), ("B".toList, "2".toList)],
                [("A".toList, "---".toList), ("B".toList, "---".toList)]] := by
  refine ⟨by decide, by decide, by decide⟩

/-- C2 (amended): within a recognized table region the first line yields the
ordered, trimmed column headers; the second line is skipped unconditionally
(whether or not it is a separator candidate); and every subsequent line that
starts and ends with `|` and whose cell count exactly equals the header's
column count is retained as a record in original order (separator-looking
lines included), while every other line is dropped. -/
theorem C2_parse_markdown_table_rows (table_text : Str) (h x : Str) (rest : List Str)
    (hl : pmtLines table_text = h :: x :: rest)
    (hp : (startsWithStr ['|'] h && endsWithStr ['|'] h) = true) :
    parse_markdown_table table_text =
      (if rest.filterMap (keptRow (splitCells h)) = [] then none
       else some (rest.filterMap (keptRow (splitCells h)))) := by
  unfold parse_markdown_table
  rw [hl]
  cases rest with
  | nil => simp
  | cons r rs =>
    have hlen : ¬((h :: x :: r :: rs).length < 3) := by
      simp [List.length_cons]
    rw [if_neg hlen]
    simp only [hp, Bool.not_true, if_false, List.drop_succ_cons, List.drop_zero]
    rw [foldl_rowStep]
    simp only [List.nil_append]
    by_cases he : (r :: rs).filterMap (keptRow (splitCells h)) = []
    · simp [he, List.isEmpty_iff]
    · simp [he, List.isEmpty_iff]

theorem C2_parse_markdown_table_rows_witness :
    parse_markdown_table ("| A | B |\n|---|---|\n| 1 | 2 |".toList)
      = (if ["| 1 | 2 |".toList].filterMap (keptRow (splitCells "| A | B |".toList)) = []
         then none
         else some (["| 1 | 2 |".toList].filterMap (keptRow (splitCells "| A | B |".toList)))) :=
  C2_parse_markdown_table_rows ("| A | B |\n|---|---|\n| 1 | 2 |".toList)
    "| A | B |".toList "|---|---|".toList ["| 1 | 2 |".toList] (by decide) (by decide)

/-! ### Claim C5: header detection -/

theorem find?_congr_of_eq {α : Type} (p q : α → Bool) (l : List α)
    (h : ∀ a ∈ l, p a = q a) : l.find? p = l.find? q := by
  induction l with
  | nil => rfl
  | cons a as ih =>
    rw [List.find?_cons, List.find?_cons, h a (List.mem_cons_self a as)]
    cases q a
    · exact ih (fun b hb => h b (List.mem_cons_of_mem a hb))
    · rfl

theorem any_map_general {α β : Type} (f : α → β) (l : List α) (p : β → Bool) :
    (l.map f).any p = l.any (fun a => p (f a)) := by
  induction l with
  | nil => rfl
  | cons a as ih => simp [List.any_cons, ih]

/-- The code's per-name header test equals the amended claim's: the claim's
four forms plus a line merely starting with the bare name. -/
theorem matchesSection_eq_amended (line name : Str) :
    matchesSection line name = amendedHeaderMatch line name := by
  unfold matchesSection amendedHeaderMatch claimHeaderMatch claimOrdForm claimOrdEmphForm
    sectionPatterns
  simp only [List.any_append, any_map_general, List.any_cons, List.any_nil, Bool.or_false]
  simp only [Bool.or_assoc]
  simp only [Bool.or_comm (startsWithStr name line), Bool.or_left_comm
    (startsWithStr name line)]
  simp only [Bool.or_assoc]

/-- C5 counterexample: the line "Hashes galore" matches none of the claim's
four accepted forms for any catalog name, yet the code detects it as the
"Hashes" header, because the code also tests `line.startswith(name)` for the
bare name. -/
theorem C5_bare_name_counterexample :
    findSection "Hashes galore".toList = some "Hashes".toList ∧
      claimFindSection "Hashes galore".toList = none := by
  refine ⟨by decide, by decide⟩

/-- C5 (amended): a line is detected as a section header exactly when, for
some catalog name, it starts with an ordinal marker "1." through "9."
immediately followed by the bare name, starts with such a marker followed by
the name wrapped in "**" emphasis markers, equals the bare name exactly, ends
with the bare name, or starts with the bare name; and the section assigned is
the first name in catalog order whose accepted forms match. -/
theorem C5_header_detection (line : Str) :
    findSection line = amendedFindSection line :=
  find?_congr_of_eq _ _ _ (fun name _ => matchesSection_eq_amended line name)

/-! ### Claim C9: orphan separator candidates are silently deleted -/

/-- C9: a separator-candidate line (stripped form starting with `|`,
containing `---` or `====`, with no interior `|`, hence not a table-row
candidate) processed while no table run is open leaves the extractor state
unchanged: it reaches neither the clean text nor any table. -/
theorem C9_orphan_sep_deleted (st : ExtState) (line : Str)
    (hopen : st.in_table = false)
    (hpipe : startsWithStr ['|'] (pyStrip line) = true)
    (hsep : (hasSub ['-', '-', '-'] (pyStrip line)
              || hasSub ['=', '=', '=', '='] (pyStrip line)) = true)
    (hnoint : hasChar '|' (((pyStrip line).drop 1).dropLast) = false) :
    extractStep st line = st := by
  unfold extractStep
  have hnoint' : hasChar '|' ((pyStrip line).tail).dropLast = false := by
    simpa [List.drop_one] using hnoint
  have hrow : isTableRow (pyStrip line) = false := by
    unfold isTableRow
    simp [hnoint']
  have hsl : isSepLine (pyStrip line) = true := by
    unfold isSepLine
    simp [hpipe, hsep]
  simp [hrow, hsl, hopen]

theorem C9_orphan_sep_deleted_witness :
    extractStep initExtState "|---".toList = initExtState :=
  C9_orphan_sep_deleted initExtState "|---".toList rfl (by decide) (by decide) (by decide)

/-! ### Claim C10: sections closed with an empty buffer -/

/-- C10: closing a section whose content buffer is empty stores nothing (the
state is unchanged, so no empty-string prose is ever recorded), and a catalog
section whose header is detected but followed by no content ends up with the
same fixed placeholder prose and absent (`none`) tables value as an
undetected section. -/
theorem C10_empty_buffer_placeholder :
    (∀ st : ParseState, st.current_content = [] → closeSection st = st) ∧
      (∀ name ∈ section_names,
        findSection name = some name ∧
          dlookup name (parse_report_sections name).1 = some (noContentText name) ∧
          dlookup name (parse_report_sections name).2 = some none) := by
  constructor
  · intro st hc
    unfold closeSection
    cases st.current_section with
    | none => rfl
    | some cs =>
      dsimp only
      rw [if_neg (by simp [hc])]
  · intro name hmem
    fin_cases hmem <;> exact ⟨by decide, by decide, by decide⟩

theorem C10_empty_buffer_placeholder_witness :
    closeSection ⟨[], [], some "Hashes".toList, []⟩
        = (⟨[], [], some "Hashes".toList, []⟩ : ParseState) ∧
      (findSection "Hashes".toList = some "Hashes".toList ∧
        dlookup "Hashes".toList (parse_report_sections "Hashes".toList).1
            = some (noContentText "Hashes".toList) ∧
        dlookup "Hashes".toList (parse_report_sections "Hashes".toList).2 = some none) :=
  ⟨C10_empty_buffer_placeholder.1 _ rfl,
   C10_empty_buffer_placeholder.2 "Hashes".toList (by decide)⟩

/-! ### Claim C6: failure sentinels and the config import -/

/-- C6 (code bug): `src/main.py` imports `OPENAI_API_KEY` from `config`, but
`src/config.py` binds no such name (it binds `OPENROUTER_API_KEY`), so the run
aborts with an ImportError before `call_llm` can substitute a sentinel; and
the part of the claim the parsing code does satisfy: both sentinel strings
match no section header, so every catalog section gets the placeholder prose
and an absent (`none`) tables value. -/
theorem C6_sentinel_and_import :
    "OPENAI_API_KEY".toList ∈ mainConfigImports ∧
      "OPENAI_API_KEY".toList ∉ configModuleNames ∧
      (section_names.all (fun n =>
        decide (dlookup n (parse_report_sections apiKeyErrorText).1
            = some (noContentText n)) &&
        decide (dlookup n (parse_report_sections apiKeyErrorText).2 = some none) &&
        decide (dlookup n (parse_report_sections requestErrorText).1
            = some (noContentText n)) &&
        decide (dlookup n (parse_report_sections requestErrorText).2 = some none))) = true := by
  refine ⟨by decide, by decide, by decide⟩

/-! ### Claim C3: content accumulation between headers -/

theorem parseStep_no_header_init {l : Str} (h : findSection (pyStrip l) = none) :
    parseStep initParseState l = initParseState := by
  unfold parseStep
  by_cases hb : pyStrip l = []
  · simp [hb, initParseState]
  · simp [hb, h, initParseState]

theorem parseStep_no_header_in_section {st : ParseState} {s : Str}
    (hcs : st.current_section = some s) {l : Str}
    (h : findSection (pyStrip l) = none) :
    parseStep st l =
      { st with current_content :=
          if pyStrip l = [] then
            (if st.current_content = [] then st.current_content
             else st.current_content ++ [[]])
          else st.current_content ++ [pyStrip l] } := by
  unfold parseStep
  obtain ⟨se, ta, cs, cc⟩ := st
  simp only at hcs
  subst hcs
  by_cases hb : pyStrip l = []
  · by_cases hc : cc = []
    · simp [hb, hc]
    · simp [hb, hc]
  · rw [if_neg hb, h]
    simp [hb]

/-- C3 counterexample: the buffered line is the stripped line, not the
verbatim line (first two conjuncts), and a blank line arriving while the
buffer is still empty is dropped rather than preserved as an empty entry
(third conjunct). -/
theorem C3_verbatim_counterexample :
    ((splitOnChar '\n' "1. Attack Indicators\n   xyz".toList).foldl parseStep
        initParseState).current_content = ["xyz".toList] ∧
      "xyz".toList ≠ "   xyz".toList ∧
      ((splitOnChar '\n' "1. Attack Indicators\n\nxyz".toList).foldl parseStep
        initParseState).current_content = ["xyz".toList] := by
  refine ⟨by decide, by decide, by decide⟩

/-- C3 (amended): while a section is open, every following line up to the
next detected header is appended to that section's buffer after trimming
leading/trailing whitespace; a blank line is preserved as an empty buffer
entry only when the buffer is already non-empty (leading blanks are dropped);
and everything before the first detected header is discarded — running the
loop over header-free lines from the initial state leaves the state
unchanged, capturing the content in no catalog entry. -/
theorem C3_content_accumulation :
    (∀ pre : List Str, (∀ l ∈ pre, findSection (pyStrip l) = none) →
        pre.foldl parseStep initParseState = initParseState) ∧
      (∀ (st : ParseState) (s : Str) (lines : List Str),
        st.current_section = some s →
        (∀ l ∈ lines, findSection (pyStrip l) = none) →
        lines.foldl parseStep st =
          { st with current_content := bufferAccum st.current_content lines }) := by
  constructor
  · intro pre h
    induction pre with
    | nil => rfl
    | cons l ls ih =>
      rw [List.foldl_cons, parseStep_no_header_init (h l (List.mem_cons_self l ls))]
      exact ih (fun b hb => h b (List.mem_cons_of_mem l hb))
  · intro st s lines hcs h
    induction lines generalizing st with
    | nil => simp [bufferAccum]
    | cons l ls ih =>
      rw [List.foldl_cons,
        parseStep_no_header_in_section hcs (h l (List.mem_cons_self l ls))]
      refine Eq.trans (ih _ ?_ ?_) rfl
      · exact hcs
      · exact fun b hb => h b (List.mem_cons_of_mem l hb)

theorem C3_content_accumulation_witness :
    ["intro junk".toList].foldl parseStep initParseState = initParseState ∧
      ["  padded  ".toList, "".toList].foldl parseStep
          (⟨[], [], some "Hashes".toList, []⟩ : ParseState) =
        { (⟨[], [], some "Hashes".toList, []⟩ : ParseState) with
            current_content := bufferAccum [] ["  padded  ".toList, "".toList] } :=
  ⟨C3_content_accumulation.1 ["intro junk".toList] (by decide),
   C3_content_accumulation.2 ⟨[], [], some "Hashes".toList, []⟩ "Hashes".toList
     ["  padded  ".toList, "".toList] rfl (by decide)⟩

/-! ### Claim C4: lines outside table regions in the clean text -/

theorem flushTable_clean_lines (st : ExtState) :
    (flushTable st).clean_lines = st.clean_lines := by
  unfold flushTable
  split
  · split <;> rfl
  · rfl

/-- A non-table, non-separator line is appended to the clean lines in its
original, untrimmed form exactly when it is non-blank. -/
theorem extractStep_clean_of_nontable (st : ExtState) (l : Str)
    (hrow : isTableRow (pyStrip l) = false) (hsep : isSepLine (pyStrip l) = false) :
    (extractStep st l).clean_lines =
      st.clean_lines ++ (if pyStrip l = [] then [] else [l]) := by
  have hnil1 : isTableRow [] = false := by decide
  have hnil2 : isSepLine [] = false := by decide
  by_cases hin : st.in_table = true
  · by_cases hb : pyStrip l = []
    · simp [extractStep, hrow, hsep, hin, hb, hnil1, hnil2, flushTable_clean_lines]
    · simp [extractStep, hrow, hsep, hin, hb, flushTable_clean_lines]
  · by_cases hb : pyStrip l = []
    · simp [extractStep, hrow, hsep, hin, hb, hnil1, hnil2]
    · simp [extractStep, hrow, hsep, hin, hb]

/-- Each step either leaves the clean lines unchanged or appends exactly the
current line, and it does the latter only for a non-blank non-table line. -/
theorem extractStep_clean_cases (st : ExtState) (l : Str) :
    (extractStep st l).clean_lines = st.clean_lines ∨
      ((extractStep st l).clean_lines = st.clean_lines ++ [l] ∧
        pyStrip l ≠ [] ∧ isTableRow (pyStrip l) = false ∧
        isSepLine (pyStrip l) = false) := by
  by_cases hrow : isTableRow (pyStrip l) = true
  · left
    by_cases hin : st.in_table = true
    · simp [extractStep, hrow, hin]
    · simp [extractStep, hrow, hin]
  · by_cases hsep : isSepLine (pyStrip l) = true
    · left
      rw [Bool.not_eq_true] at hrow
      by_cases hin : st.in_table = true
      · simp [extractStep, hrow, hsep, hin]
      · simp [extractStep, hrow, hsep, hin]
    · rw [Bool.not_eq_true] at hrow
      rw [Bool.not_eq_true] at hsep
      by_cases hb : pyStrip l = []
      · left
        rw [extractStep_clean_of_nontable st l hrow hsep]
        simp [hb]
      · right
        refine ⟨?_, hb, hrow, hsep⟩
        rw [extractStep_clean_of_nontable st l hrow hsep]
        simp [hb]

theorem extractStep_clean_mono {st : ExtState} {x : Str} (hx : x ∈ st.clean_lines)
    (l : Str) : x ∈ (extractStep st l).clean_lines := by
  rcases extractStep_clean_cases st l with h | ⟨h, _⟩ <;> rw [h]
  · exact hx
  · exact List.mem_append_left _ hx

theorem foldl_extract_clean_mono (lines : List Str) {st : ExtState} {x : Str}
    (hx : x ∈ st.clean_lines) : x ∈ (lines.foldl extractStep st).clean_lines := by
  induction lines generalizing st with
  | nil => exact hx
  | cons l ls ih => exact ih (extractStep_clean_mono hx l)

/-- Provenance: every clean line was already there or is one of the processed
lines, verbatim, non-blank and matching no table-line pattern. -/
theorem foldl_extract_clean_prov (lines : List Str) (st : ExtState) :
    ∀ x ∈ (lines.foldl extractStep st).clean_lines,
      x ∈ st.clean_lines ∨
        (x ∈ lines ∧ pyStrip x ≠ [] ∧ isTableRow (pyStrip x) = false ∧
          isSepLine (pyStrip x) = false) := by
  induction lines generalizing st with
  | nil => exact fun x hx => Or.inl hx
  | cons l ls ih =>
    intro x hx
    rcases ih (extractStep st l) x hx with hin | ⟨hmem, hprops⟩
    · rcases extractStep_clean_cases st l with h | ⟨h, hb, hrow, hsep⟩
      · rw [h] at hin
        exact Or.inl hin
      · rw [h] at hin
        rcases List.mem_append.1 hin with hold | hnew
        · exact Or.inl hold
        · rcases List.mem_singleton.1 hnew with rfl
          exact Or.inr ⟨List.mem_cons_self _ _, hb, hrow, hsep⟩
    · exact Or.inr ⟨List.mem_cons_of_mem l hmem, hprops⟩

/-- Completeness: every non-blank line matching no table-line pattern ends up
among the clean lines. -/
theorem foldl_extract_clean_complete (lines : List Str) (st : ExtState) {l : Str}
    (hl : l ∈ lines) (hrow : isTableRow (pyStrip l) = false)
    (hsep : isSepLine (pyStrip l) = false) (hb : pyStrip l ≠ []) :
    l ∈ (lines.foldl extractStep st).clean_lines := by
  induction lines generalizing st with
  | nil => cases hl
  | cons a as ih =>
    rcases List.mem_cons.1 hl with heq | htail
    · subst heq
      refine foldl_extract_clean_mono as ?_
      rw [extractStep_clean_of_nontable st l hrow hsep]
      simp [hb]
    · exact ih _ htail

/-- C4 counterexample: a non-blank line outside any table region is kept in
the clean text in its original form, not trimmed. -/
theorem C4_untrimmed_counterexample :
    extract_tables_from_text "  hello  ".toList = ("  hello  ".toList, []) ∧
      "  hello  ".toList ≠ "hello".toList := by
  refine ⟨by decide, by decide⟩

/-- C4 (amended): every line of the input that is blank after stripping is
removed from the clean text; every clean line is one of the input lines
verbatim (original whitespace preserved, not trimmed) and is non-blank; and
no non-blank line outside a table region — one matching neither table-line
pattern — is deleted from the clean text. -/
theorem C4_clean_text (text : Str) :
    (∀ x ∈ ((splitOnChar '\n' text).foldl extractStep initExtState).clean_lines,
        x ∈ splitOnChar '\n' text ∧ pyStrip x ≠ []) ∧
      (∀ l ∈ splitOnChar '\n' text,
        isTableRow (pyStrip l) = false → isSepLine (pyStrip l) = false →
          pyStrip l ≠ [] →
          l ∈ ((splitOnChar '\n' text).foldl extractStep initExtState).clean_lines) ∧
      (extract_tables_from_text text).1 =
        joinWith '\n' ((splitOnChar '\n' text).foldl extractStep initExtState).clean_lines := by
  refine ⟨?_, ?_, rfl⟩
  · intro x hx
    rcases foldl_extract_clean_prov (splitOnChar '\n' text) initExtState x hx with
      hin | ⟨hmem, hb, _, _⟩
    · cases hin
    · exact ⟨hmem, hb⟩
  · intro l hl hrow hsep hb
    exact foldl_extract_clean_complete _ _ hl hrow hsep hb

theorem C4_clean_text_witness :
    "  hi  ".toList ∈
      ((splitOnChar '\n' "  hi  \n\n| a | b |".toList).foldl extractStep
        initExtState).clean_lines :=
  (C4_clean_text "  hi  \n\n| a | b |".toList).2.1 "  hi  ".toList
    (by decide) (by decide) (by decide) (by decide)

/-! ### Claim C7: idempotence of the table extractor -/

theorem splitOnChar_ne_nil (c : Char) (s : Str) : splitOnChar c s ≠ [] := by
  induction s with
  | nil => simp [splitOnChar]
  | cons x xs ih =>
    unfold splitOnChar
    by_cases h : x = c
    · simp [h]
    · simp only [h, if_false]
      cases hs : splitOnChar c xs
      · simp
      · simp

theorem hasChar_mem_splitOnChar (c : Char) (s : Str) :
    ∀ x ∈ splitOnChar c s, hasChar c x = false := by
  induction s with
  | nil =>
    intro x hx
    rcases List.mem_singleton.1 hx with rfl
    rfl
  | cons a as ih =>
    intro x hx
    unfold splitOnChar at hx
    by_cases h : a = c
    · rw [if_pos h] at hx
      rcases List.mem_cons.1 hx with rfl | hx
      · rfl
      · exact ih x hx
    · rw [if_neg h] at hx
      cases hs : splitOnChar c as with
      | nil => exact absurd hs (splitOnChar_ne_nil c as)
      | cons y ys =>
        rw [hs] at hx
        rcases List.mem_cons.1 hx with rfl | hx
        · have hy : hasChar c y = false := ih y (by rw [hs]; exact List.mem_cons_self y ys)
          simp [hasChar, h, hy]
        · exact ih x (by rw [hs]; exact List.mem_cons_of_mem y hx)

theorem splitOnChar_append (c : Char) (x s : Str) (h : hasChar c x = false) :
    splitOnChar c (x ++ s) = (splitOnChar c s).modifyHead (fun y => x ++ y) := by
  induction x with
  | nil =>
    cases hs : splitOnChar c s with
    | nil => exact absurd hs (splitOnChar_ne_nil c s)
    | cons y ys => simp [hs, List.modifyHead]
  | cons a as ih =>
    simp only [hasChar, Bool.or_eq_false_iff, decide_eq_false_iff_not] at h
    obtain ⟨hac, has⟩ := h
    cases hs : splitOnChar c s with
    | nil => exact absurd hs (splitOnChar_ne_nil c s)
    | cons y ys =>
      have ih' := ih has
      rw [hs] at ih'
      simp only [List.cons_append]
      unfold splitOnChar
      rw [if_neg hac, ih']
      simp [List.modifyHead]

theorem splitOnChar_joinWith (c : Char) (ls : List Str) (hne : ls ≠ [])
    (h : ∀ x ∈ ls, hasChar c x = false) :
    splitOnChar c (joinWith c ls) = ls := by
  induction ls with
  | nil => exact absurd rfl hne
  | cons x xs ih =>
    cases xs with
    | nil =>
      have hx := h x (List.mem_cons_self _ _)
      have := splitOnChar_append c x [] hx
      simpa [joinWith, List.modifyHead, splitOnChar] using this
    | cons y ys =>
      have hx := h x (List.mem_cons_self _ _)
      have hcons : splitOnChar c (c :: joinWith c (y :: ys))
          = [] :: splitOnChar c (joinWith c (y :: ys)) := by
        conv_lhs => unfold splitOnChar
        rw [if_pos rfl]
      rw [joinWith, splitOnChar_append c x (c :: joinWith c (y :: ys)) hx, hcons,
        ih (by simp) (fun b hb => h b (List.mem_cons_of_mem x hb))]
      simp [List.modifyHead]

/-- Running the extractor over lines that are non-blank and match no
table-line pattern just appends them all to the clean lines. -/
theorem foldl_extract_cleanish (ls : List Str)
    (h : ∀ x ∈ ls, pyStrip x ≠ [] ∧ isTableRow (pyStrip x) = false ∧
      isSepLine (pyStrip x) = false)
    (cl : List Str) (tb : List Table) :
    ls.foldl extractStep ⟨cl, [], tb, false⟩ = ⟨cl ++ ls, [], tb, false⟩ := by
  induction ls generalizing cl with
  | nil => simp
  | cons a as ih =>
    obtain ⟨hb, hrow, hsep⟩ := h a (List.mem_cons_self _ _)
    have hstep : extractStep ⟨cl, [], tb, false⟩ a = ⟨cl ++ [a], [], tb, false⟩ := by
      simp [extractStep, hrow, hsep, hb]
    rw [List.foldl_cons, hstep, ih (fun x hx => h x (List.mem_cons_of_mem a hx))]
    simp

/-- The extractor maps a text that consists only of clean lines to itself,
with no tables. -/
theorem extract_of_clean (cl : List Str)
    (hprops : ∀ x ∈ cl, pyStrip x ≠ [] ∧ isTableRow (pyStrip x) = false ∧
      isSepLine (pyStrip x) = false)
    (hnl : ∀ x ∈ cl, hasChar '\n' x = false) :
    extract_tables_from_text (joinWith '\n' cl) = (joinWith '\n' cl, []) := by
  cases cl with
  | nil => decide
  | cons x xs =>
    have hsplit : splitOnChar '\n' (joinWith '\n' (x :: xs)) = x :: xs :=
      splitOnChar_joinWith '\n' (x :: xs) (by simp) hnl
    unfold extract_tables_from_text
    rw [hsplit, show initExtState = (⟨[], [], [], false⟩ : ExtState) from rfl,
      foldl_extract_cleanish (x :: xs) hprops [] []]
    simp

/-- C7: re-running the table extractor on its own clean-text output returns
the clean text unchanged and produces zero tables. -/
theorem C7_extract_idempotent (text : Str) :
    extract_tables_from_text (extract_tables_from_text text).1 =
      ((extract_tables_from_text text).1, []) := by
  have h1 : (extract_tables_from_text text).1 =
      joinWith '\n' ((splitOnChar '\n' text).foldl extractStep initExtState).clean_lines := rfl
  rw [h1]
  refine extract_of_clean _ ?_ ?_
  · intro x hx
    rcases foldl_extract_clean_prov _ _ x hx with hin | ⟨_, hb, hrow, hsep⟩
    · exact absurd hin (by simp [initExtState])
    · exact ⟨hb, hrow, hsep⟩
  · intro x hx
    rcases foldl_extract_clean_prov _ _ x hx with hin | ⟨hmem, _⟩
    · exact absurd hin (by simp [initExtState])
    · exact hasChar_mem_splitOnChar '\n' text x hmem

/-! ### Claim C8: the prompt digest -/

theorem foldl_rowLine {α : Type} (ρ : α → Str) (l : List α) (acc : List Str) (k : Nat) :
    (l.foldl (fun (p : List Str × Nat) row => (p.1 ++ [rowLine ρ p.2 row], p.2 + 1))
        (acc, k)).1
      = acc ++ (List.enumFrom k l).map (fun q => rowLine ρ q.1 q.2) := by
  induction l generalizing acc k with
  | nil => simp
  | cons a as ih =>
    rw [List.foldl_cons, ih]
    simp [List.enumFrom, List.append_assoc]

/-- C8: `build_combined_prompt` samples exactly the first 15 rows of each
source in their existing order (all rows when a source has fewer), renders
each sampled row as one line made of its 1-based index within that source
followed by the row's rendering, and groups each source's rows under that
source's own labelled header, sources concatenated in input order. -/
theorem C8_combined_rows_digest {α : Type} (ρ : α → Str)
    (all_data : List (Str × List α)) :
    build_combined_rows ρ all_data = specDigest ρ all_data := by
  suffices h : ∀ (data : List (Str × List α)) (acc : List Str),
      data.foldl
        (fun combined_rows sheet =>
          let limited_records := sheet.2.take 15
          (limited_records.foldl
            (fun (p : List Str × Nat) row => (p.1 ++ [rowLine ρ p.2 row], p.2 + 1))
            (combined_rows ++ [sheetHeaderLine sheet.1], 0)).1) acc
        = acc ++ specDigest ρ data by
    have hmain := h all_data []
    simpa [build_combined_rows] using hmain
  intro data
  induction data with
  | nil =>
    intro acc
    simp [specDigest]
  | cons sheet rest ih =>
    intro acc
    rw [List.foldl_cons, ih]
    dsimp only
    rw [foldl_rowLine]
    simp [specDigest, List.enum, List.append_assoc]

/-! ### Sanity checks on concrete inputs -/

example :
    parse_markdown_table ("| A | B |\n|---|---|\n| 1 | 2 |".toList)
      = some [[("A".toList, "1".toList), ("B".toList, "2".toList)]] := by decide

example :
    parse_markdown_table ("| A | B |\n| 1 | 2 |\n| 3 | 4 |".toList)
      = some [[("A".toList, "3".toList), ("B".toList, "4".toList)]] := by decide

example :
    extract_tables_from_text ("intro\n| A | B |\n|---|---|\n| 1 | 2 |\nafter".toList)
      = ("intro\nafter".toList,
         [[[("A".toList, "1".toList), ("B".toList, "2".toList)]]]) := by decide

example :
    extract_tables_from_text ("  hello  ".toList) = ("  hello  ".toList, []) := by decide

example : findSection "1. Attack Indicators".toList = some "Attack Indicators".toList := by
  decide

example : findSection "Some intro text ending in Hashes".toList = some "Hashes".toList := by
  decide

example :
    dlookup "Attack Indicators".toList
        (parse_report_sections "1. Attack Indicators\nSummary line one.".toList).1
      = some "Summary line one.".toList := by decide

example :
    dlookup "Hashes".toList (parse_report_sections "nothing here".toList).1
      = some (noContentText "Hashes".toList) := by decide

example :
    build_combined_rows (fun r : Str => r)
        [("S1".toList, ["a".toList, "b".toList]), ("S2".toList, ["c".toList])]
      = [sheetHeaderLine "S1".toList, "1. a".toList, "2. b".toList,
         sheetHeaderLine "S2".toList, "1. c".toList] := by decide

end CyberReport
